import Mathlib

/-!
Verification of the build-environment preflight validator
(`src/bootstrap/sanity.rs`): the memoized command resolver (`Finder`)
and the ordered preflight rule set (`check`), shallowly embedded.

The filesystem is modelled as a pair of boolean predicates on path
strings (`is_file` probes and `exists` probes, matching the two kinds
of probes the source performs).  Process state after a fatal `panic!`
is modelled with `Except String`.
-/

/-- Abstract filesystem: `isFile p` models Rust `Path::is_file`,
`pathExists p` models Rust `Path::exists` / `fs::metadata(..).is_ok()`. -/
structure FS where
  isFile : String → Bool
  pathExists : String → Bool

/-- True when the string begins with a slash (an absolute Unix path). -/
def pathStartsSlash (s : String) : Bool :=
  match s.toList with
  | '/' :: _ => true
  | _ => false

/-- Rust `Path::join`: joining an absolute path replaces the base. -/
def pathJoin (d n : String) : String :=
  if pathStartsSlash n then n
  else if d = "" then n
  else d ++ "/" ++ n

/-- Scan a reversed path for the extension of its final component:
returns `some rest` where `rest` is the reversed path with the final
`.ext` removed, or `none` when the file name has no extension (no dot,
or only a leading dot, per Rust `Path::file_stem` semantics). -/
def revDropExt : List Char → Option (List Char)
  | [] => none
  | c :: rest =>
      if c = '/' then none
      else if c = '.' then
        match rest with
        | [] => none
        | r :: _ => if r = '/' then none else some rest
      else revDropExt rest

/-- Rust `Path::with_extension("exe")`: replace the extension of the
final path component with `exe` (append `.exe` when there is none).
The reversed stem `(revDropExt p.toList.reverse).getD p.toList.reverse`
is prefixed with the reversed `.exe` and reversed back. -/
def withExtExe (p : String) : String :=
  String.mk (('e' :: 'x' :: 'e' :: '.' ::
    ((revDropExt p.toList.reverse).getD p.toList.reverse)).reverse)

/-- Split a character list on a separator character (like `str::split`:
the empty list yields one empty component). -/
def splitChar (c : Char) : List Char → List (List Char)
  | [] => [[]]
  | a :: rest =>
      let r := splitChar c rest
      if a = c then [] :: r
      else
        match r with
        | [] => [[a]]
        | h :: t => (a :: h) :: t

/-- Rust `env::split_paths` on Unix: split the PATH string on `:`. -/
def splitPaths (s : String) : List String :=
  (splitChar ':' s.toList).map (fun l => String.mk l)

/-- Whether `pat` is a leading segment of `l`. -/
def isPre : List Char → List Char → Bool
  | [], _ => true
  | _ :: _, [] => false
  | a :: as, b :: bs => (a == b) && isPre as bs

/-- Whether `pat` occurs contiguously inside `l`. -/
def hasSub (pat : List Char) : List Char → Bool
  | [] => pat.isEmpty
  | b :: bs => isPre pat (b :: bs) || hasSub pat bs

/-- Rust `str::contains` for string patterns (substring test). -/
def strHas (s pat : String) : Bool :=
  hasSub pat.toList s.toList

/-- The memoized command resolver: a cache from queried names to
results, plus the PATH string snapshotted at construction. -/
structure Finder where
  cache : List (String × Option String)
  path : String
deriving DecidableEq

/-- `Finder::new`: empty cache, PATH snapshot taken from the current
value of the live search-path variable. -/
def Finder.new (envPath : String) : Finder :=
  { cache := [], path := envPath }

/-- Association-list lookup modelling `HashMap::get` on the cache. -/
def cacheLookup : List (String × Option String) → String → Option (Option String)
  | [], _ => none
  | (k, v) :: rest, n => if k = n then some v else cacheLookup rest n

/-- The per-directory match policy of `Finder::maybe_have`:
`target.is_file() || target.with_extension("exe").exists()
|| target.join(cmd ++ ".exe").exists()`. -/
def fsMatch (fs : FS) (d n : String) : Bool :=
  let target := pathJoin d n
  fs.isFile target
    || fs.pathExists (withExtExe target)
    || fs.pathExists (pathJoin target (n ++ ".exe"))

/-- The directory walk of `Finder::maybe_have`: first matching
directory wins, the returned path is the suffix-less `D/name`. -/
def searchDirs (fs : FS) : List String → String → Option String
  | [], _ => none
  | d :: rest, n =>
      if fsMatch fs d n then some (pathJoin d n) else searchDirs fs rest n

/-- `Finder::maybe_have`: consult the cache; on a miss walk the PATH
snapshot and memoize the result (found path or not-found) under the
exact queried name. -/
def Finder.maybe_have (fs : FS) (f : Finder) (n : String) : Option String × Finder :=
  match cacheLookup f.cache n with
  | some r => (r, f)
  | none =>
      let r := searchDirs fs (splitPaths f.path) n
      (r, { f with cache := (n, r) :: f.cache })

/-- `Finder::must_have`: like `maybe_have` but a miss is a fatal panic
naming the missing command. -/
def Finder.must_have (fs : FS) (f : Finder) (n : String) : Except String (String × Finder) :=
  match Finder.maybe_have fs f n with
  | (some p, f2) => Except.ok (p, f2)
  | (none, _) => Except.error ("could not find required command: " ++ n)

/-- Per-target configuration record (`Target` in the config), with the
lazily-created optional fields the validator reads and writes.  The
tri-state `no_std` follows the specified data model. -/
structure TargetCfg where
  llvm_config : Option String := none
  musl_root : Option String := none
  no_std : Option Bool := none
deriving DecidableEq

/-- Lookup in the `target_config` map (`HashMap::get`). -/
def tcGet : List (String × TargetCfg) → String → Option TargetCfg
  | [], _ => none
  | (k, v) :: rest, t => if k = t then some v else tcGet rest t

/-- `target_config.entry(t).or_insert(Default::default())` followed by
a field mutation `g` on the entry. -/
def tcUpdate : List (String × TargetCfg) → String → (TargetCfg → TargetCfg) → List (String × TargetCfg)
  | [], t, g => [(t, g {})]
  | (k, v) :: rest, t, g =>
      if k = t then (k, g v) :: rest else (k, v) :: tcUpdate rest t g

/-- Modelled from the spec: the `Build::no_std(target)` accessor is not
under `src/`; per the specified data model it reads the per-target
record's tri-state `noStd` field (absent record means unset). -/
def noStdOf (tc : List (String × TargetCfg)) (t : String) : Option Bool :=
  (tcGet tc t).bind (fun c => c.no_std)

/-- Modelled from the spec: the `Build::musl_root(target)` accessor is
not under `src/`; per the specified data model it reads the per-target
record's optional `muslRoot` field. -/
def muslRootOf (tc : List (String × TargetCfg)) (t : String) : Option String :=
  (tcGet tc t).bind (fun c => c.musl_root)

/-- `let building_llvm = build.hosts.iter()
.filter_map(|host| target_config.get(host))
.any(|config| config.llvm_config.is_none())`: hosts without a config
record are filtered away before the test. -/
def buildingLlvm (hosts : List String) (tc : List (String × TargetCfg)) : Bool :=
  hosts.any (fun h =>
    match tcGet tc h with
    | some c => c.llvm_config.isNone
    | none => false)

/-- The cmake rule: `if building_llvm || sanitizers then
must_have("cmake")`; otherwise the finder is untouched. -/
def cmakeRule (hosts : List String) (tc : List (String × TargetCfg))
    (sanitizers : Bool) (fs : FS) (f : Finder) : Except String Finder :=
  if buildingLlvm hosts tc || sanitizers then
    match Finder.must_have fs f "cmake" with
    | Except.ok (_, f2) => Except.ok f2
    | Except.error e => Except.error e
  else Except.ok f

/-- Stated from the claim's words, for comparison with `cmakeRule`:
cmake is required when at least one target's `llvmConfigPath` is
absent (including targets with no config record) or sanitizers are
enabled. -/
def specCmakeRequired (targets : List String) (tc : List (String × TargetCfg))
    (sanitizers : Bool) : Bool :=
  targets.any (fun t =>
    match tcGet tc t with
    | some c => c.llvm_config.isNone
    | none => true) || sanitizers

/-- Stated from the claim's words, for comparison with `fsMatch`:
match when `D/name` is a regular file, or `D/name` with the executable
suffix appended exists, or `D/name/name.exe` exists. -/
def claimFsMatch (fs : FS) (d n : String) : Bool :=
  fs.isFile (pathJoin d n)
    || fs.pathExists (pathJoin d n ++ ".exe")
    || fs.pathExists (pathJoin (pathJoin d n) (n ++ ".exe"))

/-- The python resolution chain of `check`:
configured path validated with `must_have`, else the BOOTSTRAP_PYTHON
override taken as-is, else `maybe_have("python2.7")`, else
`maybe_have("python2")`, else `must_have("python")`. -/
def resolvePython (cfgPython bootstrapEnv : Option String) (fs : FS) (f : Finder) :
    Except String (Option String × Finder) :=
  match cfgPython with
  | some p =>
      match Finder.must_have fs f p with
      | Except.ok (r, f2) => Except.ok (some r, f2)
      | Except.error e => Except.error e
  | none =>
    match bootstrapEnv with
    | some q => Except.ok (some q, f)
    | none =>
      match Finder.maybe_have fs f "python2.7" with
      | (some r, f1) => Except.ok (some r, f1)
      | (none, f1) =>
        match Finder.maybe_have fs f1 "python2" with
        | (some r, f2) => Except.ok (some r, f2)
        | (none, f2) =>
          match Finder.must_have fs f2 "python" with
          | Except.ok (r, f3) => Except.ok (some r, f3)
          | Except.error e => Except.error e

/-- The `-none-` target rule: default an unset tri-state `no_std` to
true, then abort when the (re-read) setting is explicitly false. -/
def noStdRule (tc : List (String × TargetCfg)) (t : String) :
    Except String (List (String × TargetCfg)) :=
  if strHas t "-none-" then
    let tc1 :=
      if (noStdOf tc t).isNone
      then tcUpdate tc t (fun c => { c with no_std := some true })
      else tc
    if noStdOf tc1 t == some false then
      Except.error "All the *-none-* targets are no-std targets"
    else Except.ok tc1
  else Except.ok tc

/-- The musl target rule: default the root to `/usr` when unset and
the target is the build platform, then demand `lib/libc.a` and
`lib/libunwind.a` under the root, else abort telling the user to
configure a root. -/
def muslRule (buildTriple : String) (tc : List (String × TargetCfg))
    (t : String) (fs : FS) : Except String (List (String × TargetCfg)) :=
  if strHas t "musl" then
    let tc1 :=
      if (muslRootOf tc t).isNone && (buildTriple == t)
      then tcUpdate tc t (fun c => { c with musl_root := some "/usr" })
      else tc
    match muslRootOf tc1 t with
    | some root =>
        if !(fs.pathExists (root ++ "/lib/libc.a")) then
          Except.error ("could not find libc.a in musl dir: " ++ root ++ "/lib")
        else if !(fs.pathExists (root ++ "/lib/libunwind.a")) then
          Except.error ("could not find libunwind.a in musl dir: " ++ root ++ "/lib")
        else Except.ok tc1
    | none =>
        Except.error "when targeting MUSL either the rust.musl-root option or the target.$TARGET.musl-root option must be specified in config.toml"
  else Except.ok tc

/-- Outcome of spawning an external process: either the spawn itself
failed, or the process ran (with any exit status; `Command::output`
captures output regardless of exit status) producing this stdout. -/
inductive ProcOutcome where
  | noLaunch
  | ran (stdout : String)
deriving DecidableEq

/-- Rust `str::lines().next()`: the first `\n`-delimited line with one
trailing `\r` stripped; empty output has no first line. -/
def firstLine (s : String) : Option String :=
  let cs := s.toList
  if cs.isEmpty then none
  else
    let t := cs.takeWhile (fun c => !(c = '\n'))
    let t2 := if cs.any (fun c => c = '\n') && t.getLast? == some '\r'
              then t.dropLast else t
    some (String.mk t2)

/-- The `run` closure of `check`: spawn failure becomes a recoverable
miss (via `.ok()` at the call sites), but a process that ran with no
first line of output hits the `unwrap_or_else(|| panic!(..))`. -/
def runLldb : ProcOutcome → Except String (Option String)
  | ProcOutcome.noLaunch => Except.ok none
  | ProcOutcome.ran out =>
      match firstLine out with
      | some l => Except.ok (some l)
      | none => Except.error "lldb invocation failed: no output"

/-- The debugger-introspection step: `lldb --version` first, and only
when that produced a version, `lldb -P`; results are the pair
`(lldb_version, lldb_python_dir)`. -/
def lldbStep (v p : ProcOutcome) : Except String (Option String × Option String) :=
  match runLldb v with
  | Except.error e => Except.error e
  | Except.ok lv =>
      if lv.isSome then
        match runLldb p with
        | Except.error e => Except.error e
        | Except.ok pd => Except.ok (lv, pd)
      else Except.ok (lv, none)

/-- The stable-channel provenance guard: only on the stable channel
read `src/stage0.txt` (`none` models an unreadable file, which the
`t!` macro turns into a panic) and abort when the contents contain the
substring from a newline through `dev:`. -/
def stableRule (channel : String) (stage0 : Option String) : Except String Unit :=
  if channel = "stable" then
    match stage0 with
    | none => Except.error "could not read stage0.txt"
    | some s =>
        if strHas s "\ndev:" then
          Except.error "bootstrapping from a dev compiler in a stable release, but should only be bootstrapping from a released compiler!"
        else Except.ok ()
  else Except.ok ()

/-- Stated from the claim's words, for comparison with `stableRule`:
the file contents contain a line marker indicating a development
bootstrap compiler, i.e. some line starts with `dev:`. -/
def specDevMarker (s : String) : Bool :=
  (splitChar '\n' s.toList).any (fun l => isPre ('d' :: 'e' :: 'v' :: ':' :: []) l)

/-- An event during one validation run: a resolver query, or a
mutation of the live search-path environment variable. -/
inductive SanEvent where
  | query (n : String)
  | setPath (p : String)
deriving DecidableEq

/-- The sequence of names queried by a list of events. -/
def queriesOf : List SanEvent → List String
  | [] => []
  | SanEvent.query n :: es => n :: queriesOf es
  | SanEvent.setPath _ :: es => queriesOf es

/-- Run a sequence of resolver queries, threading the finder state. -/
def runQueries (fs : FS) (f : Finder) : List String → List (Option String)
  | [] => []
  | n :: ns =>
      let p := Finder.maybe_have fs f n
      p.1 :: runQueries fs p.2 ns

/-- Run a list of events: queries go through the finder (which reads
only its own PATH snapshot, as in the source), while `setPath` events
mutate the live environment variable. -/
def runEvents (fs : FS) (f : Finder) (envPath : String) : List SanEvent → List (Option String)
  | [] => []
  | SanEvent.query n :: es =>
      let p := Finder.maybe_have fs f n
      p.1 :: runEvents fs p.2 envPath es
  | SanEvent.setPath q :: es => runEvents fs f q es

/-- A whole session: the finder is constructed once, snapshotting the
live search-path value, then the events run. -/
def runSession (fs : FS) (envPath : String) (es : List SanEvent) : List (Option String) :=
  runEvents fs (Finder.new envPath) envPath es

/-! Helper lemmas about the resolver cache and configuration map. -/

theorem cacheLookup_cons_self (c : List (String × Option String)) (n : String) (r : Option String) :
    cacheLookup ((n, r) :: c) n = some r := by
  simp [cacheLookup]

theorem maybe_have_of_cached (fs : FS) (f : Finder) (n : String) (r : Option String)
    (h : cacheLookup f.cache n = some r) :
    Finder.maybe_have fs f n = (r, f) := by
  unfold Finder.maybe_have
  rw [h]

theorem maybe_have_caches (fs : FS) (f : Finder) (n : String) :
    cacheLookup (Finder.maybe_have fs f n).2.cache n = some (Finder.maybe_have fs f n).1 := by
  unfold Finder.maybe_have
  cases h : cacheLookup f.cache n with
  | some r => simpa using h
  | none => simp [cacheLookup_cons_self]

theorem tcGet_tcUpdate_self (tc : List (String × TargetCfg)) (t : String) (g : TargetCfg → TargetCfg) :
    tcGet (tcUpdate tc t g) t = some (g (((tcGet tc t).getD {}))) := by
  induction tc with
  | nil => simp [tcUpdate, tcGet]
  | cons kv rest ih =>
      obtain ⟨k, v⟩ := kv
      by_cases hk : k = t
      · subst hk
        simp [tcUpdate, tcGet]
      · simp [tcUpdate, tcGet, hk, ih]

/-- C3: For every command name, two consecutive query calls on the same
resolver return identical results, and after the first query for a
name the result is memoized: a later query for that exact name returns
the same answer and leaves the resolver unchanged for ANY filesystem
(in particular, the filesystem is not probed again for that name). -/
theorem query_memoized (fs fs2 : FS) (f : Finder) (n : String) :
    Finder.maybe_have fs (Finder.maybe_have fs f n).2 n = Finder.maybe_have fs f n ∧
    Finder.maybe_have fs2 (Finder.maybe_have fs f n).2 n = Finder.maybe_have fs f n := by
  constructor
  · rw [maybe_have_of_cached fs _ n _ (maybe_have_caches fs f n)]
  · rw [maybe_have_of_cached fs2 _ n _ (maybe_have_caches fs f n)]

/-- Event runs only depend on the finder state, the filesystem, and
the sequence of queried names; the live environment variable is never
consulted after the snapshot at construction. -/
theorem runEvents_eq_runQueries (fs : FS) :
    ∀ (es : List SanEvent) (f : Finder) (envPath : String),
      runEvents fs f envPath es = runQueries fs f (queriesOf es) := by
  intro es
  induction es with
  | nil => intro f envPath; rfl
  | cons e rest ih =>
      intro f envPath
      cases e with
      | query n => simp [runEvents, runQueries, queriesOf, ih]
      | setPath q => simp [runEvents, queriesOf, ih]

/-- C9: The search-path snapshot is taken once at construction: two
runs of the same queries on one resolver instance that differ only in
how the live search-path variable is mutated after construction give
identical results for every query. -/
theorem snapshot_immutable (fs : FS) (envPath : String) (es1 es2 : List SanEvent)
    (h : queriesOf es1 = queriesOf es2) :
    runSession fs envPath es1 = runSession fs envPath es2 := by
  unfold runSession
  rw [runEvents_eq_runQueries, runEvents_eq_runQueries, h]

/-- C9 witness: a concrete session in which the live search-path is
redirected to a directory that does contain `git` right after
construction; the answers match the run without the mutation, still
not finding `git` (the snapshot `/empty` is what is searched). -/
theorem snapshot_immutable_witness :
    queriesOf [SanEvent.query "git", SanEvent.setPath "/bin", SanEvent.query "git"] =
      queriesOf [SanEvent.query "git", SanEvent.query "git"] ∧
    runSession ⟨fun p => p == "/bin/git", fun p => p == "/bin/git"⟩ "/empty"
        [SanEvent.query "git", SanEvent.setPath "/bin", SanEvent.query "git"] =
      runSession ⟨fun p => p == "/bin/git", fun p => p == "/bin/git"⟩ "/empty"
        [SanEvent.query "git", SanEvent.query "git"] ∧
    runSession ⟨fun p => p == "/bin/git", fun p => p == "/bin/git"⟩ "/empty"
        [SanEvent.query "git", SanEvent.setPath "/bin", SanEvent.query "git"] = [none, none] := by
  refine ⟨by decide, ?_, by decide⟩
  exact snapshot_immutable _ "/empty" _ _ (by decide)

/-- C10: When a directory matches only through one of the
executable-suffix probes (the `with_extension` candidate or the
`name/name.exe` subdirectory candidate exists, while `D/name` itself
is not a regular file), the query still returns the suffix-less
`D/name`.  The embedding mirrors the source, whose suffix probes carry
no platform conditional at all: they run on every platform. -/
theorem suffix_match_returns_suffixless (fs : FS) (d n : String)
    (hd : splitPaths d = [d])
    (h1 : fs.isFile (pathJoin d n) = false)
    (h2 : fs.pathExists (withExtExe (pathJoin d n)) = true ∨
          fs.pathExists (pathJoin (pathJoin d n) (n ++ ".exe")) = true) :
    (Finder.maybe_have fs (Finder.new d) n).1 = some (pathJoin d n) := by
  unfold Finder.maybe_have Finder.new
  simp only [cacheLookup]
  rw [hd]
  unfold searchDirs fsMatch
  rcases h2 with h2 | h2 <;> simp [h1, h2]

/-- C10 witness: only `/usr/bin/git.exe` exists; `/usr/bin/git` is
neither a regular file nor present at all, yet the query returns
`/usr/bin/git`. -/
theorem suffix_match_returns_suffixless_witness :
    (FS.pathExists ⟨fun _ => false, fun p => p == "/usr/bin/git.exe"⟩ (pathJoin "/usr/bin" "git") = false) ∧
    (Finder.maybe_have ⟨fun _ => false, fun p => p == "/usr/bin/git.exe"⟩
        (Finder.new "/usr/bin") "git").1 = some "/usr/bin/git" := by
  refine ⟨by decide, ?_⟩
  exact suffix_match_returns_suffixless ⟨fun _ => false, fun p => p == "/usr/bin/git.exe"⟩
    "/usr/bin" "git" (by decide) (by decide) (Or.inl (by decide))

/-! Lemmas about extension replacement, the directory walk, and
substring search. -/

theorem revDropExt_no_dot_slash (w : List Char) :
    ∀ (cs : List Char), (∀ c ∈ cs, c ≠ '.' ∧ c ≠ '/') →
      revDropExt (cs ++ '/' :: w) = none := by
  intro cs
  induction cs with
  | nil => intro _; simp [revDropExt]
  | cons a as ih =>
      intro h
      have ha := h a (List.mem_cons_self a as)
      simp only [List.cons_append, revDropExt, if_neg ha.2, if_neg ha.1]
      exact ih (fun c hc => h c (List.mem_cons_of_mem a hc))

theorem withExtExe_join (d n : String)
    (hn : ∀ c ∈ n.toList, c ≠ '.' ∧ c ≠ '/') (hd : d ≠ "") :
    withExtExe (pathJoin d n) = pathJoin d n ++ ".exe" := by
  have hslash : pathStartsSlash n = false := by
    unfold pathStartsSlash
    cases hns : n.toList with
    | nil => rfl
    | cons c cs =>
        by_cases hc : c = '/'
        · exfalso
          exact (hn c (by rw [hns]; exact List.mem_cons_self c cs)).2 hc
        · simp [hc]
  have hj : pathJoin d n = d ++ "/" ++ n := by
    unfold pathJoin
    rw [hslash]
    simp [hd]
  rw [hj]
  have hdata : (d ++ "/" ++ n).toList = d.data ++ '/' :: n.data := by
    show (d ++ "/" ++ n).data = d.data ++ '/' :: n.data
    rw [String.data_append, String.data_append]
    simp only [show ("/" : String).data = ['/'] from rfl, List.append_assoc,
      List.cons_append, List.nil_append]
  unfold withExtExe
  rw [hdata]
  have hrev : (d.data ++ '/' :: n.data).reverse = n.data.reverse ++ '/' :: d.data.reverse := by
    rw [List.reverse_append, List.reverse_cons]
    simp
  rw [hrev]
  have hnone : revDropExt (n.data.reverse ++ '/' :: d.data.reverse) = none := by
    apply revDropExt_no_dot_slash
    intro c hc
    exact hn c (List.mem_reverse.mp hc)
  rw [hnone]
  have hdata2 : (d ++ "/" ++ n).data = d.data ++ '/' :: n.data := hdata
  apply String.ext
  show ('e' :: 'x' :: 'e' :: '.' :: (Option.getD none (n.data.reverse ++ '/' :: d.data.reverse))).reverse
      = (d ++ "/" ++ n ++ ".exe").data
  rw [String.data_append, hdata2]
  show ('e' :: 'x' :: 'e' :: '.' :: (n.data.reverse ++ '/' :: d.data.reverse)).reverse
      = d.data ++ '/' :: n.data ++ ".exe".data
  simp [List.reverse_cons, List.reverse_append,
    show (".exe" : String).data = ['.', 'e', 'x', 'e'] from rfl]

theorem searchDirs_eq_some_iff (fs : FS) (n p : String) :
    ∀ dirs : List String,
      (searchDirs fs dirs n = some p ↔
        ∃ pre d post, dirs = pre ++ d :: post ∧
          (∀ e ∈ pre, fsMatch fs e n = false) ∧
          fsMatch fs d n = true ∧ p = pathJoin d n) := by
  intro dirs
  induction dirs with
  | nil =>
      simp only [searchDirs]
      constructor
      · intro h; exact absurd h (by simp)
      · rintro ⟨pre, d, post, habs, -⟩
        exact absurd habs (by simp)
  | cons d0 rest ih =>
      by_cases hm : fsMatch fs d0 n = true
      · simp only [searchDirs, hm, if_pos]
        constructor
        · intro h
          refine ⟨[], d0, rest, rfl, by simp, hm, ?_⟩
          simpa using (Option.some.injEq _ _ ▸ h).symm
        · rintro ⟨pre, d, post, hdec, hpre, hd, hp⟩
          cases pre with
          | nil =>
              simp only [List.nil_append, List.cons.injEq] at hdec
              rw [hp, hdec.1]
          | cons q qs =>
              simp only [List.cons_append, List.cons.injEq] at hdec
              exfalso
              have hq := hpre q (List.mem_cons_self q qs)
              rw [← hdec.1] at hq
              rw [hq] at hm
              exact Bool.false_ne_true hm
      · have hm' : fsMatch fs d0 n = false := by
          cases h : fsMatch fs d0 n with
          | true => exact absurd h hm
          | false => rfl
        simp only [searchDirs, hm', if_neg, Bool.false_eq_true, if_false]
        rw [ih]
        constructor
        · rintro ⟨pre, d, post, hdec, hpre, hd, hp⟩
          refine ⟨d0 :: pre, d, post, by rw [hdec]; rfl, ?_, hd, hp⟩
          intro e he
          rcases List.mem_cons.mp he with he0 | hee
          · rw [he0]; exact hm'
          · exact hpre e hee
        · rintro ⟨pre, d, post, hdec, hpre, hd, hp⟩
          cases pre with
          | nil =>
              simp only [List.nil_append, List.cons.injEq] at hdec
              rw [← hdec.1] at hd
              exact absurd hd (by simp [hm'])
          | cons q qs =>
              simp only [List.cons_append, List.cons.injEq] at hdec
              refine ⟨qs, d, post, hdec.2, ?_, hd, hp⟩
              intro e he
              exact hpre e (List.mem_cons_of_mem q he)

theorem searchDirs_eq_none_iff (fs : FS) (n : String) :
    ∀ dirs : List String,
      (searchDirs fs dirs n = none ↔ ∀ d ∈ dirs, fsMatch fs d n = false) := by
  intro dirs
  induction dirs with
  | nil => simp [searchDirs]
  | cons d0 rest ih =>
      by_cases hm : fsMatch fs d0 n = true
      · simp [searchDirs, hm]
      · have hm' : fsMatch fs d0 n = false := by
          cases h : fsMatch fs d0 n with
          | true => exact absurd h hm
          | false => rfl
        simp [searchDirs, hm', ih]

theorem isPre_iff (pat : List Char) :
    ∀ l : List Char, (isPre pat l = true ↔ ∃ l2, l = pat ++ l2) := by
  induction pat with
  | nil => intro l; simp [isPre]
  | cons a as ih =>
      intro l
      cases l with
      | nil => simp [isPre]
      | cons b bs =>
          simp only [isPre, Bool.and_eq_true, beq_iff_eq, ih bs, List.cons_append,
            List.cons.injEq]
          constructor
          · rintro ⟨hab, l2, hbs⟩
            exact ⟨l2, hab.symm, hbs⟩
          · rintro ⟨l2, hab, hbs⟩
            exact ⟨hab.symm, l2, hbs⟩

theorem hasSub_iff (pat : List Char) :
    ∀ l : List Char, (hasSub pat l = true ↔ ∃ l1 l2, l = l1 ++ pat ++ l2) := by
  intro l
  induction l with
  | nil =>
      simp only [hasSub, List.isEmpty_iff]
      constructor
      · intro h
        exact ⟨[], [], by simp [h]⟩
      · rintro ⟨l1, l2, h⟩
        have := (List.append_eq_nil.mp (List.append_eq_nil.mp h.symm).1).2
        exact this
  | cons b bs ih =>
      simp only [hasSub, Bool.or_eq_true, isPre_iff, ih]
      constructor
      · rintro (⟨l2, h⟩ | ⟨l1, l2, h⟩)
        · exact ⟨[], l2, by simp [h]⟩
        · exact ⟨b :: l1, l2, by simp [h]⟩
      · rintro ⟨l1, l2, h⟩
        cases l1 with
        | nil =>
            left
            exact ⟨l2, by simpa using h⟩
        | cons c cs =>
            right
            simp only [List.cons_append, List.cons.injEq] at h
            exact ⟨cs, l2, h.2⟩

/-- C2 counterexample: for the command name `python2.7`, the claim's
match policy (suffix APPENDED: `D/python2.7.exe` exists) matches, but
the code probes `with_extension("exe")`, i.e. `D/python2.exe`, so the
query misses. -/
theorem query_walk_policy_cex :
    claimFsMatch ⟨fun p => p == "/d/python2.7.exe", fun p => p == "/d/python2.7.exe"⟩
        "/d" "python2.7" = true ∧
    (Finder.maybe_have ⟨fun p => p == "/d/python2.7.exe", fun p => p == "/d/python2.7.exe"⟩
        (Finder.new "/d") "python2.7").1 = none := by
  exact ⟨by decide, by decide⟩

/-- C2 (amended): query walks the snapshot directories in order and
returns the suffix-less path of the first directory matching the
policy: `D/name` is a regular file, or the path obtained from `D/name`
by REPLACING the final extension of its file name with `exe` exists,
or `D/name/name.exe` exists; no directory matching yields not-found
without abort.  For names containing neither a dot nor a slash the
replacement coincides with the claim's plain `.exe` append. -/
theorem query_walk_policy :
    (∀ (fs : FS) (f : Finder) (n : String), cacheLookup f.cache n = none →
        (Finder.maybe_have fs f n).1 = searchDirs fs (splitPaths f.path) n) ∧
    (∀ (fs : FS) (n p : String) (dirs : List String),
        searchDirs fs dirs n = some p ↔
          ∃ pre d post, dirs = pre ++ d :: post ∧
            (∀ e ∈ pre, fsMatch fs e n = false) ∧
            fsMatch fs d n = true ∧ p = pathJoin d n) ∧
    (∀ (fs : FS) (n : String) (dirs : List String),
        searchDirs fs dirs n = none ↔ ∀ d ∈ dirs, fsMatch fs d n = false) ∧
    (∀ (fs : FS) (d n : String), (∀ c ∈ n.toList, c ≠ '.' ∧ c ≠ '/') → d ≠ "" →
        fsMatch fs d n = claimFsMatch fs d n) := by
  refine ⟨?_, searchDirs_eq_some_iff, searchDirs_eq_none_iff, ?_⟩
  · intro fs f n h
    unfold Finder.maybe_have
    rw [h]
  · intro fs d n hn hd
    show (fs.isFile (pathJoin d n) || fs.pathExists (withExtExe (pathJoin d n))
        || fs.pathExists (pathJoin (pathJoin d n) (n ++ ".exe"))) = _
    rw [withExtExe_join d n hn hd]
    rfl

/-- C2 witness: the dot-free name `git` matches the claim's policy
verbatim, and the walk returns the first matching directory. -/
theorem query_walk_policy_witness :
    fsMatch ⟨fun p => p == "/a/git", fun _ => false⟩ "/a" "git" =
      claimFsMatch ⟨fun p => p == "/a/git", fun _ => false⟩ "/a" "git" ∧
    searchDirs ⟨fun p => p == "/b/git", fun _ => false⟩ ["/a", "/b"] "git" = some "/b/git" := by
  constructor
  · exact query_walk_policy.2.2.2 _ "/a" "git" (by decide) (by decide)
  · exact (query_walk_policy.2.1 _ "git" "/b/git" ["/a", "/b"]).mpr
      ⟨["/a"], "/b", [], rfl, by decide, by decide, by decide⟩


/-- C1 counterexample: the claim quantifies over targets, the code
over hosts with an explicitly present config record.  With hosts =
[host-a] (record present, llvmConfigPath set) and an extra target
(no record, so its llvmConfigPath is absent) the claim demands a cmake
requirement, yet the rule performs no cmake lookup at all (the finder
is returned untouched); likewise for a host whose record is absent
entirely. -/
theorem cmake_requirement_cex :
    specCmakeRequired ["host-a", "target-b"]
        [("host-a", { llvm_config := some "/llvm/bin/llvm-config" })] false = true ∧
    cmakeRule ["host-a"] [("host-a", { llvm_config := some "/llvm/bin/llvm-config" })] false
        ⟨fun _ => false, fun _ => false⟩ (Finder.new "/bin") = Except.ok (Finder.new "/bin") ∧
    specCmakeRequired ["host-a"] [] false = true ∧
    cmakeRule ["host-a"] [] false ⟨fun _ => false, fun _ => false⟩ (Finder.new "/bin") =
      Except.ok (Finder.new "/bin") := by
  exact ⟨by decide, rfl, by decide, rfl⟩

/-- C1 (amended): a cmake lookup (fatal abort when absent) is
performed exactly when some HOST has an explicitly present per-target
config record whose llvmConfigPath is absent, OR the sanitizers flag
is set: with an uncached finder, the rule ends in an abort or in a
finder that has cached a cmake lookup if and only if that condition
holds, and when the condition fails the finder is returned untouched —
no cmake lookup at all. -/
theorem cmake_requirement_amended (hosts : List String) (tc : List (String × TargetCfg))
    (s : Bool) (fs : FS) (f : Finder)
    (hc : cacheLookup f.cache "cmake" = none) :
    (((∃ h ∈ hosts, ∃ c, tcGet tc h = some c ∧ c.llvm_config = none) ∨ s = true) ↔
      ((∃ e, cmakeRule hosts tc s fs f = Except.error e) ∨
       (∃ f2 r, cmakeRule hosts tc s fs f = Except.ok f2 ∧
          cacheLookup f2.cache "cmake" = some r))) ∧
    (¬((∃ h ∈ hosts, ∃ c, tcGet tc h = some c ∧ c.llvm_config = none) ∨ s = true) →
      cmakeRule hosts tc s fs f = Except.ok f) := by
  have hbuild : buildingLlvm hosts tc = true ↔
      ∃ h ∈ hosts, ∃ c, tcGet tc h = some c ∧ c.llvm_config = none := by
    unfold buildingLlvm
    rw [List.any_eq_true]
    constructor
    · rintro ⟨h, hh, hp⟩
      cases hcg : tcGet tc h with
      | none => rw [hcg] at hp; exact absurd hp (by simp)
      | some c =>
          rw [hcg] at hp
          simp only [Option.isNone_iff_eq_none] at hp
          exact ⟨h, hh, c, hcg, hp⟩
    · rintro ⟨h, hh, c, hcg, hlc⟩
      exact ⟨h, hh, by simp [hcg, hlc]⟩
  by_cases hcond : (buildingLlvm hosts tc || s) = true
  · have hrule : cmakeRule hosts tc s fs f =
        match Finder.must_have fs f "cmake" with
        | Except.ok (_, f2) => Except.ok f2
        | Except.error e => Except.error e := by
      unfold cmakeRule
      rw [if_pos hcond]
    have hout : (∃ e, cmakeRule hosts tc s fs f = Except.error e) ∨
        (∃ f2 r, cmakeRule hosts tc s fs f = Except.ok f2 ∧
          cacheLookup f2.cache "cmake" = some r) := by
      rw [hrule]
      unfold Finder.must_have Finder.maybe_have
      rw [hc]
      cases hr : searchDirs fs (splitPaths f.path) "cmake" with
      | some p => exact Or.inr ⟨_, some p, rfl, cacheLookup_cons_self _ _ _⟩
      | none => exact Or.inl ⟨_, rfl⟩
    have hlhs : (∃ h ∈ hosts, ∃ c, tcGet tc h = some c ∧ c.llvm_config = none) ∨ s = true := by
      rcases Bool.or_eq_true_iff.mp hcond with hb | hs
      · exact Or.inl (hbuild.mp hb)
      · exact Or.inr hs
    exact ⟨⟨fun _ => hout, fun _ => hlhs⟩, fun hneg => absurd hlhs hneg⟩
  · have hok : cmakeRule hosts tc s fs f = Except.ok f := by
      unfold cmakeRule
      rw [if_neg hcond]
    have hb : buildingLlvm hosts tc = false := by
      cases h : buildingLlvm hosts tc with
      | false => rfl
      | true => exact absurd (by rw [h]; rfl : (buildingLlvm hosts tc || s) = true) hcond
    have hs : s = false := by
      cases h : s with
      | false => rfl
      | true => exact absurd (by rw [h]; simp : (buildingLlvm hosts tc || s) = true) hcond
    constructor
    · constructor
      · rintro (hl | hst)
        · have := hbuild.mpr hl
          rw [hb] at this
          exact absurd this Bool.false_ne_true
        · rw [hs] at hst
          exact absurd hst Bool.false_ne_true
      · rintro (⟨e, he⟩ | ⟨f2, r, hf2, hcl⟩)
        · rw [hok] at he
          exact absurd he (by simp)
        · rw [hok] at hf2
          injection hf2 with hf
          rw [← hf] at hcl
          rw [hc] at hcl
          exact absurd hcl (by simp)
    · intro _
      exact hok

/-- C1 witness: with no hosts but sanitizers enabled a cmake lookup is
performed (aborting here, cmake being absent); a host whose record
lacks llvmConfigPath likewise forces the lookup; a host whose record
has llvmConfigPath set, with sanitizers off, leaves the finder
untouched. -/
theorem cmake_requirement_amended_witness :
    ((∃ e, cmakeRule [] [] true ⟨fun _ => false, fun _ => false⟩ (Finder.new "/bin") =
        Except.error e) ∨
     (∃ f2 r, cmakeRule [] [] true ⟨fun _ => false, fun _ => false⟩ (Finder.new "/bin") =
        Except.ok f2 ∧ cacheLookup f2.cache "cmake" = some r)) ∧
    ((∃ e, cmakeRule ["h"] [("h", { llvm_config := none })] false
        ⟨fun _ => false, fun _ => false⟩ (Finder.new "/bin") = Except.error e) ∨
     (∃ f2 r, cmakeRule ["h"] [("h", { llvm_config := none })] false
        ⟨fun _ => false, fun _ => false⟩ (Finder.new "/bin") = Except.ok f2 ∧
        cacheLookup f2.cache "cmake" = some r)) ∧
    cmakeRule ["h"] [("h", { llvm_config := some "/l" })] false
        ⟨fun _ => false, fun _ => false⟩ (Finder.new "/bin") = Except.ok (Finder.new "/bin") := by
  refine ⟨?_, ?_, ?_⟩
  · exact (cmake_requirement_amended [] [] true ⟨fun _ => false, fun _ => false⟩
      (Finder.new "/bin") rfl).1.mp (Or.inr rfl)
  · exact (cmake_requirement_amended ["h"] [("h", { llvm_config := none })] false
      ⟨fun _ => false, fun _ => false⟩ (Finder.new "/bin") rfl).1.mp
      (Or.inl ⟨"h", by simp, { llvm_config := none }, rfl, rfl⟩)
  · refine (cmake_requirement_amended ["h"] [("h", { llvm_config := some "/l" })] false
      ⟨fun _ => false, fun _ => false⟩ (Finder.new "/bin") rfl).2 ?_
    rintro (⟨h, hh, c, hcg, hlc⟩ | habs)
    · simp only [List.mem_singleton] at hh
      subst hh
      rw [show tcGet [("h", ({ llvm_config := some "/l" } : TargetCfg))] "h" =
          some { llvm_config := some "/l" } from rfl] at hcg
      injection hcg with h3
      rw [← h3] at hlc
      exact Option.noConfusion hlc
    · exact absurd habs Bool.false_ne_true

/-- C4: The Python interpreter resolution is a first-match-wins chain:
a user-configured path is validated with require (fatal naming that
path when missing); else an environment-provided override is used
without any validation (for every filesystem); else query python2.7;
else query python2; else require python, aborting with a message
naming `python`.  With python2.7 present it is chosen even when
`python` is also present, since the chain never reaches `python`. -/
theorem python_chain (fs : FS) (f : Finder) :
    (∀ p env2, (Finder.maybe_have fs f p).1 = none →
        resolvePython (some p) env2 fs f =
          Except.error ("could not find required command: " ++ p)) ∧
    (∀ q fs2, resolvePython none (some q) fs2 f = Except.ok (some q, f)) ∧
    (∀ r f1, Finder.maybe_have fs f "python2.7" = (some r, f1) →
        resolvePython none none fs f = Except.ok (some r, f1)) ∧
    (∀ f1 f2, Finder.maybe_have fs f "python2.7" = (none, f1) →
        Finder.maybe_have fs f1 "python2" = (none, f2) →
        (Finder.maybe_have fs f2 "python").1 = none →
        resolvePython none none fs f =
          Except.error ("could not find required command: " ++ "python")) := by
  refine ⟨?_, ?_, ?_, ?_⟩
  · intro p env2 h
    rcases hE : Finder.maybe_have fs f p with ⟨r, fr⟩
    rw [hE] at h
    simp only at h
    subst h
    unfold resolvePython Finder.must_have
    simp only [hE]
  · intro q fs2
    rfl
  · intro r f1 h
    unfold resolvePython
    rw [h]
  · intro f1 f2 h1 h2 h3
    rcases hE : Finder.maybe_have fs f2 "python" with ⟨r, fr⟩
    rw [hE] at h3
    simp only at h3
    subst h3
    unfold resolvePython Finder.must_have
    simp only [h1, h2, hE]

/-- C4 witness: with both `/bin/python2.7` and `/bin/python` on the
search path, python2.7 is chosen; with neither, the abort names
python; a configured path is validated; an override is not. -/
theorem python_chain_witness :
    resolvePython none none
        ⟨fun p => p == "/bin/python2.7" || p == "/bin/python", fun _ => false⟩
        (Finder.new "/bin") =
      Except.ok (some "/bin/python2.7",
        ⟨[("python2.7", some "/bin/python2.7")], "/bin"⟩) ∧
    resolvePython none none ⟨fun _ => false, fun _ => false⟩ (Finder.new "/bin") =
      Except.error ("could not find required command: " ++ "python") ∧
    resolvePython (some "/cfg/python") (some "/override") ⟨fun _ => false, fun _ => false⟩
        (Finder.new "/bin") =
      Except.error ("could not find required command: " ++ "/cfg/python") ∧
    resolvePython none (some "/override/python") ⟨fun _ => false, fun _ => false⟩
        (Finder.new "/bin") = Except.ok (some "/override/python", Finder.new "/bin") := by
  refine ⟨?_, ?_, ?_, ?_⟩
  · exact (python_chain ⟨fun p => p == "/bin/python2.7" || p == "/bin/python", fun _ => false⟩
      (Finder.new "/bin")).2.2.1 "/bin/python2.7"
      ⟨[("python2.7", some "/bin/python2.7")], "/bin"⟩ (by decide)
  · exact (python_chain ⟨fun _ => false, fun _ => false⟩ (Finder.new "/bin")).2.2.2
      ⟨[("python2.7", none)], "/bin"⟩
      ⟨[("python2", none), ("python2.7", none)], "/bin"⟩ (by decide) (by decide) (by decide)
  · exact (python_chain ⟨fun _ => false, fun _ => false⟩ (Finder.new "/bin")).1
      "/cfg/python" (some "/override") (by decide)
  · exact (python_chain ⟨fun _ => false, fun _ => false⟩ (Finder.new "/bin")).2.1
      "/override/python" ⟨fun _ => false, fun _ => false⟩

theorem noStdOf_update_true (tc : List (String × TargetCfg)) (t : String) :
    noStdOf (tcUpdate tc t (fun c => { c with no_std := some true })) t = some true := by
  unfold noStdOf
  rw [tcGet_tcUpdate_self]
  rfl

theorem muslRootOf_update_usr (tc : List (String × TargetCfg)) (t : String) :
    muslRootOf (tcUpdate tc t (fun c => { c with musl_root := some "/usr" })) t = some "/usr" := by
  unfold muslRootOf
  rw [tcGet_tcUpdate_self]
  rfl

/-- C6: For a target whose identifier contains `-none-`: with no
explicit no-std setting on entry the rule completes without aborting
and leaves the target's no-std set to true; with no-std explicitly
false on entry the rule aborts fatally. -/
theorem none_target_no_std (tc : List (String × TargetCfg)) (t : String)
    (hn : strHas t "-none-" = true) :
    (noStdOf tc t = none →
      noStdRule tc t = Except.ok (tcUpdate tc t (fun c => { c with no_std := some true })) ∧
      noStdOf (tcUpdate tc t (fun c => { c with no_std := some true })) t = some true) ∧
    (noStdOf tc t = some false →
      noStdRule tc t = Except.error "All the *-none-* targets are no-std targets") := by
  constructor
  · intro h
    refine ⟨?_, noStdOf_update_true tc t⟩
    unfold noStdRule
    rw [hn]
    simp only [h, Option.isNone_none, if_pos, noStdOf_update_true]
    rfl
  · intro h
    unfold noStdRule
    rw [hn]
    simp only [h, Option.isNone_some, Bool.false_eq_true, if_false]
    rfl

/-- C6 witness: a concrete bare-metal target with no prior setting
ends with no-std true; the same target with no-std false aborts. -/
theorem none_target_no_std_witness :
    strHas "thumbv7m-none-eabi" "-none-" = true ∧
    noStdRule [] "thumbv7m-none-eabi" =
      Except.ok [("thumbv7m-none-eabi", { no_std := some true })] ∧
    noStdOf [("thumbv7m-none-eabi", { no_std := some true })] "thumbv7m-none-eabi" = some true ∧
    noStdRule [("thumbv7m-none-eabi", { no_std := some false })] "thumbv7m-none-eabi" =
      Except.error "All the *-none-* targets are no-std targets" := by
  refine ⟨by decide, ?_, ?_, ?_⟩
  · exact ((none_target_no_std [] "thumbv7m-none-eabi" (by decide)).1 rfl).1
  · exact ((none_target_no_std [] "thumbv7m-none-eabi" (by decide)).1 rfl).2
  · exact (none_target_no_std [("thumbv7m-none-eabi", { no_std := some false })]
      "thumbv7m-none-eabi" (by decide)).2 rfl

/-- C5 counterexample: with no root configured and target equal to the
build platform, the root defaults to `/usr` and validation aborts when
`/usr/lib/libc.a` is missing — but the diagnostic names the `lib`
directory and the archive file name separately; it does not contain
the exact missing path `/usr/lib/libc.a` the claim requires. -/
theorem musl_root_validation_cex :
    muslRule "x86_64-unknown-linux-musl" [] "x86_64-unknown-linux-musl"
        ⟨fun _ => false, fun _ => false⟩ =
      Except.error "could not find libc.a in musl dir: /usr/lib" ∧
    strHas "could not find libc.a in musl dir: /usr/lib" "/usr/lib/libc.a" = false := by
  exact ⟨rfl, by decide⟩

/-- C5 (amended): for a musl target, an unconfigured root defaults to
`/usr` exactly when the target equals the build platform; a configured
root demands `root/lib/libc.a` then `root/lib/libunwind.a`, aborting
with a diagnostic naming the missing archive file name and the
`root/lib` directory (not the full joined path); an unconfigured root
with the fallback inapplicable aborts instructing that a root must be
supplied. -/
theorem musl_root_validation (build t root : String) (tc : List (String × TargetCfg)) (fs : FS)
    (hm : strHas t "musl" = true) :
    (muslRootOf tc t = none → build = t →
        fs.pathExists "/usr/lib/libc.a" = false →
        muslRule build tc t fs = Except.error "could not find libc.a in musl dir: /usr/lib") ∧
    (muslRootOf tc t = none → build = t →
        fs.pathExists "/usr/lib/libc.a" = true →
        fs.pathExists "/usr/lib/libunwind.a" = true →
        muslRule build tc t fs =
          Except.ok (tcUpdate tc t (fun c => { c with musl_root := some "/usr" }))) ∧
    (muslRootOf tc t = some root →
        fs.pathExists (root ++ "/lib/libc.a") = false →
        muslRule build tc t fs =
          Except.error ("could not find libc.a in musl dir: " ++ root ++ "/lib")) ∧
    (muslRootOf tc t = some root →
        fs.pathExists (root ++ "/lib/libc.a") = true →
        fs.pathExists (root ++ "/lib/libunwind.a") = false →
        muslRule build tc t fs =
          Except.error ("could not find libunwind.a in musl dir: " ++ root ++ "/lib")) ∧
    (muslRootOf tc t = some root →
        fs.pathExists (root ++ "/lib/libc.a") = true →
        fs.pathExists (root ++ "/lib/libunwind.a") = true →
        muslRule build tc t fs = Except.ok tc) ∧
    (muslRootOf tc t = none → build ≠ t →
        muslRule build tc t fs =
          Except.error "when targeting MUSL either the rust.musl-root option or the target.$TARGET.musl-root option must be specified in config.toml") := by
  have hupd : muslRootOf (tcUpdate tc t (fun c => { c with musl_root := some "/usr" })) t
      = some "/usr" := muslRootOf_update_usr tc t
  have e1 : ("/usr" ++ "/lib/libc.a" : String) = "/usr/lib/libc.a" := rfl
  have e2 : ("/usr" ++ "/lib/libunwind.a" : String) = "/usr/lib/libunwind.a" := rfl
  refine ⟨?_, ?_, ?_, ?_, ?_, ?_⟩
  · intro hroot hb hlibc
    unfold muslRule
    rw [hm]
    subst hb
    simp only [hroot, Option.isNone_none, Bool.true_and, beq_self_eq_true, if_pos, hupd,
      e1, hlibc]
    rfl
  · intro hroot hb hlibc hunwind
    unfold muslRule
    rw [hm]
    subst hb
    simp only [hroot, Option.isNone_none, Bool.true_and, beq_self_eq_true, if_pos, hupd,
      e1, e2, hlibc, hunwind]
    rfl
  · intro hroot hlibc
    unfold muslRule
    rw [hm]
    simp only [hroot, Option.isNone_some, Bool.false_and, Bool.false_eq_true, if_false, hlibc]
    rfl
  · intro hroot hlibc hunwind
    unfold muslRule
    rw [hm]
    simp only [hroot, Option.isNone_some, Bool.false_and, Bool.false_eq_true, if_false,
      hlibc, hunwind]
    rfl
  · intro hroot hlibc hunwind
    unfold muslRule
    rw [hm]
    simp only [hroot, Option.isNone_some, Bool.false_and, Bool.false_eq_true, if_false,
      hlibc, hunwind]
    rfl
  · intro hroot hneq
    unfold muslRule
    rw [hm]
    have hb : (build == t) = false := beq_eq_false_iff_ne.mpr hneq
    simp only [hroot, Option.isNone_none, Bool.true_and, hb, Bool.and_false, Bool.false_eq_true,
      if_false]
    rw [if_pos trivial]

/-- C5 witness: the `/usr` fallback succeeding with both archives
present; a configured root missing libc.a aborting with the directory
diagnostic; a non-build musl target with no root aborting with the
configuration instruction. -/
theorem musl_root_validation_witness :
    muslRule "x86_64-unknown-linux-musl" [] "x86_64-unknown-linux-musl"
        ⟨fun _ => false, fun p => p == "/usr/lib/libc.a" || p == "/usr/lib/libunwind.a"⟩ =
      Except.ok [("x86_64-unknown-linux-musl", { musl_root := some "/usr" })] ∧
    muslRule "host" [("t-musl", { musl_root := some "/opt/musl" })] "t-musl"
        ⟨fun _ => false, fun _ => false⟩ =
      Except.error ("could not find libc.a in musl dir: " ++ "/opt/musl" ++ "/lib") ∧
    muslRule "host" [] "t-musl" ⟨fun _ => false, fun _ => false⟩ =
      Except.error "when targeting MUSL either the rust.musl-root option or the target.$TARGET.musl-root option must be specified in config.toml" := by
  refine ⟨?_, ?_, ?_⟩
  · exact (musl_root_validation "x86_64-unknown-linux-musl" "x86_64-unknown-linux-musl" "/usr" []
      ⟨fun _ => false, fun p => p == "/usr/lib/libc.a" || p == "/usr/lib/libunwind.a"⟩
      (by decide)).2.1 rfl rfl (by decide) (by decide)
  · exact (musl_root_validation "host" "t-musl" "/opt/musl"
      [("t-musl", { musl_root := some "/opt/musl" })]
      ⟨fun _ => false, fun _ => false⟩ (by decide)).2.2.1 (by decide) (by decide)
  · exact (musl_root_validation "host" "t-musl" "/usr" [] ⟨fun _ => false, fun _ => false⟩
      (by decide)).2.2.2.2.2 rfl (by decide)

/-- C7 counterexample: an lldb invocation that launches but produces
empty standard output hits the panic inside the run closure — the
debugger-introspection step CAN abort the process, refuting the
claim's for-every-outcome never-fatal guarantee. -/
theorem lldb_introspection_cex :
    lldbStep (ProcOutcome.ran "") (ProcOutcome.ran "") =
      Except.error "lldb invocation failed: no output" := rfl

/-- C7 (amended): the step never aborts on failure to launch the
debugger (fields left unresolved, second invocation skipped); on
success the first line of output becomes lldbVersion and only then is
the second invocation run, its first line becoming lldbPythonDir —
except that an invocation which runs yet emits no first line of output
aborts fatally. -/
theorem lldb_introspection (sv sp l lp : String) :
    (∀ p, lldbStep ProcOutcome.noLaunch p = Except.ok (none, none)) ∧
    (firstLine sv = some l →
      lldbStep (ProcOutcome.ran sv) ProcOutcome.noLaunch = Except.ok (some l, none)) ∧
    (firstLine sv = some l → firstLine sp = some lp →
      lldbStep (ProcOutcome.ran sv) (ProcOutcome.ran sp) = Except.ok (some l, some lp)) ∧
    (∀ p, firstLine sv = none →
      lldbStep (ProcOutcome.ran sv) p = Except.error "lldb invocation failed: no output") := by
  refine ⟨?_, ?_, ?_, ?_⟩
  · intro p
    rfl
  · intro h
    have hv : runLldb (ProcOutcome.ran sv) = Except.ok (some l) := by
      simp only [runLldb, h]
    unfold lldbStep
    rw [hv]
    rfl
  · intro h1 h2
    have hv : runLldb (ProcOutcome.ran sv) = Except.ok (some l) := by
      simp only [runLldb, h1]
    have hp : runLldb (ProcOutcome.ran sp) = Except.ok (some lp) := by
      simp only [runLldb, h2]
    unfold lldbStep
    rw [hv, hp]
    rfl
  · intro p h
    have hv : runLldb (ProcOutcome.ran sv) =
        Except.error "lldb invocation failed: no output" := by
      simp only [runLldb, h]
    unfold lldbStep
    rw [hv]

/-- C7 witness: launch failure leaves both fields unresolved; two
successful invocations yield their first lines. -/
theorem lldb_introspection_witness :
    lldbStep ProcOutcome.noLaunch (ProcOutcome.ran "whatever") = Except.ok (none, none) ∧
    lldbStep (ProcOutcome.ran "lldb version 9.0\nextra") (ProcOutcome.ran "/usr/lib/python2.7\n") =
      Except.ok (some "lldb version 9.0", some "/usr/lib/python2.7") := by
  constructor
  · exact (lldb_introspection "" "" "" "").1 (ProcOutcome.ran "whatever")
  · exact (lldb_introspection "lldb version 9.0\nextra" "/usr/lib/python2.7\n"
      "lldb version 9.0" "/usr/lib/python2.7").2.2.1 (by decide) (by decide)

/-- C8 counterexample: a bootstrap metadata file whose FIRST line is a
`dev:` marker contains a dev line marker (the claim's condition), yet
the code checks for the substring newline-then-`dev:` and passes. -/
theorem stable_guard_cex :
    specDevMarker "dev: 2015-01-01\n" = true ∧
    stableRule "stable" (some "dev: 2015-01-01\n") = Except.ok () := by
  exact ⟨by decide, rfl⟩

/-- C8 (amended): on any channel other than stable the rule never
reads the file and never aborts (it succeeds even when the file is
absent); on the stable channel it aborts exactly when the contents
contain a newline immediately followed by `dev:` — a line after the
first starting with `dev:`. -/
theorem stable_guard (ch s : String) (st : Option String) :
    (ch ≠ "stable" → stableRule ch st = Except.ok ()) ∧
    (stableRule "stable" (some s) =
        Except.error "bootstrapping from a dev compiler in a stable release, but should only be bootstrapping from a released compiler!" ↔
      ∃ l1 l2, s.toList = l1 ++ '\n' :: 'd' :: 'e' :: 'v' :: ':' :: l2) := by
  have hred : stableRule "stable" (some s) =
      if strHas s "\ndev:" = true then
        Except.error "bootstrapping from a dev compiler in a stable release, but should only be bootstrapping from a released compiler!"
      else Except.ok () := rfl
  constructor
  · intro hch
    unfold stableRule
    rw [if_neg hch]
  · rw [hred]
    constructor
    · intro h
      cases hb : strHas s "\ndev:" with
      | true =>
          obtain ⟨l1, l2, hl⟩ := (hasSub_iff ("\ndev:".toList) s.toList).mp hb
          exact ⟨l1, l2, by rw [hl, List.append_assoc]; rfl⟩
      | false =>
          rw [hb] at h
          exact absurd h (by simp)
    · rintro ⟨l1, l2, hl⟩
      have hb : strHas s "\ndev:" = true := by
        apply (hasSub_iff ("\ndev:".toList) s.toList).mpr
        refine ⟨l1, l2, ?_⟩
        rw [hl, List.append_assoc]
        rfl
      rw [hb]
      rfl

/-- C8 witness: a nightly channel ignores the (absent) file; a stable
channel with a non-first `dev:` line aborts. -/
theorem stable_guard_witness :
    stableRule "nightly" none = Except.ok () ∧
    stableRule "stable" (some "rustc: 1.20.0\ndev: 1\n") =
      Except.error "bootstrapping from a dev compiler in a stable release, but should only be bootstrapping from a released compiler!" := by
  constructor
  · exact (stable_guard "nightly" "" none).1 (by decide)
  · exact (stable_guard "nightly" "rustc: 1.20.0\ndev: 1\n" none).2.mpr
      ⟨"rustc: 1.20.0".toList, " 1\n".toList, by decide⟩
